import Mathlib

/-!
Shallow embedding of the hashchain engine of the HashChainFrontend
repository (src/utils/hashchainTools.ts and the generation loop of
scripts/test_generation.js).

Hash values are modelled as Lean `String`s, exactly as the TypeScript code
manipulates them.  The Keccak-256 primitive is an external dependency of the
code (`keccak256` from viem); following the spec's own design note
("Pluggable hash function: treat H as an injected strategy"), every
definition is parametric in the hash function `H : String → String`.
Fallible functions (the TypeScript ones that `throw`) return `Except String`.
JavaScript array indexing, which yields `undefined` out of bounds (including
at negative indices), is modelled by `jsGet` returning `Option String`.
-/

/-- Is `c` a hexadecimal digit (0-9, a-f, A-F)?  Used to state the spec's
well-formedness of a `HashValue` (`0x` + 64 hex characters). -/
def isHexDigitChar (c : Char) : Bool :=
  c.isDigit || ('a' ≤ c && c ≤ 'f') || ('A' ≤ c && c ≤ 'F')

/-- JavaScript `String.prototype.startsWith`, modelled over the character
list of the string. -/
def strStartsWith (s p : String) : Bool :=
  s.data.take p.data.length == p.data

/-- A well-formed HashValue per the spec's data model: the string is `0x`
followed by exactly 64 hexadecimal characters (66 characters in total). -/
def isWellFormedHashValue (s : String) : Bool :=
  match s.data with
  | '0' :: 'x' :: rest => rest.length == 64 && rest.all isHexDigitChar
  | _ => false

/-- JavaScript array read `xs[i]` for an integer index: `undefined` (here
`none`) when `i` is negative or past the end of the array. -/
def jsGet (xs : List String) (i : Int) : Option String :=
  if i < 0 then none else xs.get? i.toNat

/-- The record returned by `generateHashchain` (interface `HashchainData`).
`trustAnchor` and `firstToken` are produced by JavaScript array indexing and
so are `Option`-valued in the model (the TypeScript annotation says `string`,
but at runtime `hashes[hashes.length - 2]` is `undefined` when the chain has
a single element). -/
structure HashchainData where
  seed : String
  trustAnchor : Option String
  firstToken : Option String
  length : Nat
  nodes : List String
  fullChain : List String
deriving Repr, DecidableEq

/-- Modelled from the spec: the external SDK function `hashchain(seed,
length)` (from `@hashchain/sdk`, not part of this repository) builds an
array of `length` hash values where index 0 is the seed and
`chain[i] = H(chain[i-1])` for `i` from 1 to `length-1`; the final element
is never hashed further.  This matches the generation loop the repository
itself uses in scripts/test_generation.js. -/
def sdkHashchain (H : String → String) (seed : String) : Nat → List String
  | 0 => []
  | n + 1 => seed :: sdkHashchain H (H seed) n

/-- `generateHashchain(length, seed?)`.  `randSeed` stands for the value the
external `generateSeed()` would produce when the seed argument is absent or
falsy (the empty string).  Throws (returns `.error`) exactly when
`length <= 0`. -/
def generateHashchain (H : String → String) (randSeed : String)
    (length : Int) (seed? : Option String) : Except String HashchainData :=
  if length ≤ 0 then
    .error "Hashchain length must be greater than 0"
  else
    let seed := match seed? with
      | none => randSeed
      | some s => if s == "" then randSeed else s
    let hashes := sdkHashchain H seed length.toNat
    let firstToken := jsGet hashes ((hashes.length : Int) - 2)
    .ok ⟨seed, jsGet hashes ((hashes.length : Int) - 1), firstToken,
      hashes.length, hashes, hashes⟩

/-- `getTokensForPosition(position, totalLength)`: 0 at the trust anchor
position, otherwise `totalLength - position`; throws when the position is
outside `1..totalLength`. -/
def getTokensForPosition (position totalLength : Int) : Except String Int :=
  if position < 1 || totalLength < position then
    .error "Position out of range"
  else if position == totalLength then
    .ok 0
  else
    .ok (totalLength - position)

/-- `getPositionForToken(tokenNumber, totalLength)`: `totalLength -
tokenNumber`; throws when the token number is outside `1..totalLength-1`. -/
def getPositionForToken (tokenNumber totalLength : Int) : Except String Int :=
  if tokenNumber < 1 || totalLength - 1 < tokenNumber then
    .error "Token number out of range"
  else
    .ok (totalLength - tokenNumber)

/-- JavaScript `Array.prototype.indexOf`: the 0-based index of the first
occurrence of `target`, or `-1` when absent. -/
def jsIndexOf (target : String) : List String → Int
  | [] => -1
  | x :: xs =>
    if x == target then 0
    else
      let r := jsIndexOf target xs
      if r == -1 then -1 else r + 1

/-- The record returned by `searchHashInHashchain`. -/
structure SearchResult where
  found : Bool
  position : Option Int
  tokens : Option Int
deriving Repr, DecidableEq

/-- `searchHashInHashchain(hashchain, searchHash)`: linear first-match scan
of `fullChain`; on a hit, the 1-based position and its token count.  The
token count is computed by `getTokensForPosition`, whose exception would
propagate, hence the `Except`. -/
def searchHashInHashchain (hc : HashchainData) (searchHash : String) :
    Except String SearchResult :=
  let position := jsIndexOf searchHash hc.fullChain
  if position == -1 then
    .ok ⟨false, none, none⟩
  else
    let actualPosition := position + 1
    match getTokensForPosition actualPosition (hc.length : Int) with
    | .error e => .error e
    | .ok tokens => .ok ⟨true, some actualPosition, some tokens⟩

/-- The `for (let i = 0; i < n; i++) current = H(current)` loop body shared
by `verifyHashchain`: apply `H` a given number of times. -/
def hashLoop (H : String → String) : Nat → String → String
  | 0, s => s
  | n + 1, s => hashLoop H n (H s)

/-- `verifyHashchain(testHash, trustAnchor, numberOfHashes)`: hash the test
hash `numberOfHashes` times and compare with the trust anchor.  A negative
`numberOfHashes` runs the loop zero times (`Int.toNat` of a negative is 0,
exactly as the JavaScript `for` loop never executes). -/
def verifyHashchain (H : String → String) (testHash trustAnchor : String)
    (numberOfHashes : Int) : Bool :=
  hashLoop H numberOfHashes.toNat testHash == trustAnchor

/-- The loop of `calculateHashesNeeded`: `done` hashes already applied,
`fuel` iterations remaining; each step hashes once more and returns
`done + 1` on reaching the anchor. -/
def calcAux (H : String → String) (trustAnchor : String) :
    String → Nat → Nat → Option Nat
  | _, _, 0 => none
  | current, done, fuel + 1 =>
    let next := H current
    if next == trustAnchor then some (done + 1)
    else calcAux H trustAnchor next (done + 1) fuel

/-- `calculateHashesNeeded(testHash, trustAnchor, maxHashes = 1000)`: the
number of hash applications (at least 1) after which the trust anchor is
first produced, or `none` when it is not reached within `maxHashes`
applications. -/
def calculateHashesNeeded (H : String → String)
    (testHash trustAnchor : String) (maxHashes : Nat) : Option Nat :=
  calcAux H trustAnchor testHash 0 maxHashes

/-- The record returned by `validateHashchainParams`. -/
structure ValidationResult where
  isValid : Bool
  errors : List String
deriving Repr, DecidableEq

/-- `validateHashchainParams(length, seed?)`: collects error messages for a
non-positive length, a length above 10000, and (when the seed is present and
truthy) a seed not starting with `0x` or not 66 characters long.  Note the
function checks only the prefix and the length of the seed, not that the
remaining characters are hexadecimal. -/
def validateHashchainParams (length : Int) (seed? : Option String) :
    ValidationResult :=
  let errors : List String := []
  let errors := if length ≤ 0 then
    errors ++ ["Length must be greater than 0"] else errors
  let errors := if 10000 < length then
    errors ++ ["Length must be less than or equal to 10000"] else errors
  let errors := match seed? with
    | some s =>
      let errors := if !(s == "") && !(strStartsWith s "0x") then
        errors ++ ["Seed must start with 0x"] else errors
      if !(s == "") && !(s.length == 66) then
        errors ++ ["Seed must be 32 bytes (0x + 64 hex characters)"]
      else errors
    | none => errors
  ⟨errors.isEmpty, errors⟩

/-- The round trip of the spec's token/position law: map a token number to
its position, then the position back to a token count. -/
def tokenRoundTrip (t L : Int) : Except String Int :=
  (getPositionForToken t L).bind (fun p => getTokensForPosition p L)

/-- The round trip in the other direction: position to token count, then
token count back to a position. -/
def positionRoundTrip (p L : Int) : Except String Int :=
  (getTokensForPosition p L).bind (fun u => getPositionForToken u L)

/-- A concrete stand-in hash function for evaluating the engine on explicit
inputs: appends one character, so it never revisits a value. -/
def hashBang : String → String := fun s => s ++ "!"

/-- A concrete three-element hashchain record used to evaluate the search
function. -/
def hcW : HashchainData :=
  ⟨"a", some "c", some "b", 3, ["a", "b", "c"], ["a", "b", "c"]⟩

/-- A concrete constant hash function, used to exhibit behaviour on chains
whose hash function immediately reaches a fixed value. -/
def hashConst : String → String := fun _ => "0xdd"

/-- A concrete well-formed seed: `0x` followed by 64 hex characters. -/
def seedA : String :=
  "0xaaaaaaaaaaaaaaaaaaaaaaaaaaaaaaaaaaaaaaaaaaaaaaaaaaaaaaaaaaaaaaaa"

/-! Basic lemmas about the embedded definitions. -/

theorem hashLoop_eq_iterate (H : String → String) (n : Nat) (s : String) :
    hashLoop H n s = H^[n] s := by
  induction n generalizing s with
  | zero => rfl
  | succ n ih =>
    rw [Function.iterate_succ_apply]
    simpa only [hashLoop] using ih (H s)

theorem sdkHashchain_length (H : String → String) (n : Nat) (s : String) :
    (sdkHashchain H s n).length = n := by
  induction n generalizing s with
  | zero => rfl
  | succ n ih => simp [sdkHashchain, ih]

theorem sdkHashchain_get? (H : String → String) (n : Nat) (s : String)
    (i : Nat) (hi : i < n) :
    (sdkHashchain H s n).get? i = some (H^[i] s) := by
  induction n generalizing s i with
  | zero => omega
  | succ n ih =>
    cases i with
    | zero => simp [sdkHashchain]
    | succ i =>
      rw [Function.iterate_succ_apply]
      simpa only [sdkHashchain, List.get?_cons_succ] using
        ih (H s) i (by omega)

theorem jsGet_of_nonneg (xs : List String) {i : Int} (h : 0 ≤ i) :
    jsGet xs i = xs.get? i.toNat := by
  rw [jsGet, if_neg (by omega)]

theorem jsGet_of_neg (xs : List String) {i : Int} (h : i < 0) :
    jsGet xs i = none := by
  rw [jsGet, if_pos h]

theorem generateHashchain_eq_ok (H : String → String) (rnd s : String)
    (L : Int) (hL : 0 < L) (hs : s ≠ "") :
    generateHashchain H rnd L (some s) =
      .ok ⟨s, jsGet (sdkHashchain H s L.toNat) ((L.toNat : Int) - 1),
        jsGet (sdkHashchain H s L.toNat) ((L.toNat : Int) - 2),
        L.toNat, sdkHashchain H s L.toNat, sdkHashchain H s L.toNat⟩ := by
  have h1 : ¬ (L ≤ 0) := by omega
  have h2 : (s == "") = false := beq_eq_false_iff_ne.mpr hs
  simp [generateHashchain, h1, h2, sdkHashchain_length]

theorem isWellFormedHashValue_ne_empty {s : String}
    (h : isWellFormedHashValue s = true) : s ≠ "" := by
  intro he
  subst he
  simp [isWellFormedHashValue] at h

theorem calcAux_pos (H : String → String) (a : String) (fuel : Nat) :
    ∀ (x : String) (done r : Nat),
      calcAux H a x done fuel = some r → done < r := by
  induction fuel with
  | zero => intro x done r h; simp [calcAux] at h
  | succ n ih =>
    intro x done r h
    simp only [calcAux] at h
    by_cases hx : H x = a
    · rw [if_pos (beq_iff_eq.mpr hx)] at h
      have := Option.some.inj h
      omega
    · rw [if_neg (by simp [hx])] at h
      have := ih (H x) (done + 1) r h
      omega

theorem calcAux_first_hit (H : String → String) (a : String) (m : Nat) :
    ∀ (fuel done : Nat) (x : String), 1 ≤ m → m ≤ fuel → H^[m] x = a →
      (∀ j, 0 < j → j < m → H^[j] x ≠ a) →
      calcAux H a x done fuel = some (done + m) := by
  induction m with
  | zero => omega
  | succ m ih =>
    intro fuel done x _ hm hhit hfirst
    obtain ⟨f, rfl⟩ : ∃ f, fuel = f + 1 := ⟨fuel - 1, by omega⟩
    simp only [calcAux]
    cases m with
    | zero =>
      rw [Function.iterate_one] at hhit
      rw [if_pos (beq_iff_eq.mpr hhit)]
    | succ m' =>
      have h1 : H x ≠ a := by
        have := hfirst 1 (by omega) (by omega)
        rwa [Function.iterate_one] at this
      rw [if_neg (by simp [h1])]
      have hrec := ih f (done + 1) (H x) (by omega) (by omega)
        (by rw [← Function.iterate_succ_apply]; exact hhit)
        (by
          intro j hj0 hjm
          rw [← Function.iterate_succ_apply]
          exact hfirst (j + 1) (by omega) (by omega))
      rw [hrec]
      congr 1
      omega

theorem calculateHashesNeeded_ne_some_zero (H : String → String)
    (t a : String) (m : Nat) : calculateHashesNeeded H t a m ≠ some 0 := by
  intro h
  exact absurd (calcAux_pos H a m t 0 0 h) (by omega)

theorem calculateHashesNeeded_eq (H : String → String) (x a : String)
    (m fuel : Nat) (hm1 : 1 ≤ m) (hmf : m ≤ fuel) (hhit : H^[m] x = a)
    (hfirst : ∀ j, 0 < j → j < m → H^[j] x ≠ a) :
    calculateHashesNeeded H x a fuel = some m := by
  have := calcAux_first_hit H a m fuel 0 x hm1 hmf hhit hfirst
  simpa using this

theorem jsIndexOf_of_not_mem (t : String) (xs : List String) (h : t ∉ xs) :
    jsIndexOf t xs = -1 := by
  induction xs with
  | nil => rfl
  | cons x xs ih =>
    rw [List.mem_cons, not_or] at h
    simp only [jsIndexOf]
    rw [if_neg (by simp only [beq_iff_eq]; exact fun he => h.1 he.symm),
      ih h.2]
    rfl

theorem jsIndexOf_of_first (t : String) (xs : List String) (i : Nat)
    (hi : xs.get? i = some t) (hfirst : ∀ j, j < i → xs.get? j ≠ some t) :
    jsIndexOf t xs = i := by
  induction xs generalizing i with
  | nil => simp at hi
  | cons x xs ih =>
    cases i with
    | zero =>
      rw [List.get?_cons_zero] at hi
      simp [jsIndexOf, Option.some.inj hi]
    | succ i =>
      have hx : x ≠ t := by
        have h0 := hfirst 0 (by omega)
        rw [List.get?_cons_zero] at h0
        exact fun he => h0 (by rw [he])
      rw [List.get?_cons_succ] at hi
      have hrec := ih i hi (fun j hj => by
        have hj1 := hfirst (j + 1) (by omega)
        rwa [List.get?_cons_succ] at hj1)
      simp only [jsIndexOf]
      rw [if_neg (by simp only [beq_iff_eq]; exact hx), hrec,
        if_neg (by simp only [beq_iff_eq]; omega)]
      omega

theorem length_lt_of_get?_eq_some {xs : List String} {i : Nat} {t : String}
    (hi : xs.get? i = some t) : i < xs.length := by
  by_contra hle
  rw [List.get?_eq_none.mpr (by omega)] at hi
  exact Option.noConfusion hi

/-- Claim C1: for every length >= 1 and well-formed 32-byte seed,
`generateHashchain` returns a chain whose `fullChain` has exactly `length`
elements, with element 0 the seed, element `i` equal to `H` of element
`i-1` (so element `i` is `H` iterated `i` times on the seed, and exactly
`length - 1` hash applications occur), and `trustAnchor` equal to the final
element, which is never itself hashed. -/
theorem generate_builds_hash_chain (H : String → String) (rnd s : String)
    (L : Int) (hL : 1 ≤ L) (hs : isWellFormedHashValue s = true) :
    ∃ d : HashchainData, generateHashchain H rnd L (some s) = .ok d ∧
      d.fullChain.length = L.toNat ∧
      (∀ i : Nat, i < L.toNat → d.fullChain.get? i = some (H^[i] s)) ∧
      d.fullChain.get? 0 = some s ∧
      (∀ i : Nat, 1 ≤ i → i < L.toNat →
        d.fullChain.get? i = (d.fullChain.get? (i - 1)).map H) ∧
      d.trustAnchor = d.fullChain.get? (L.toNat - 1) ∧
      d.trustAnchor = some (H^[L.toNat - 1] s) := by
  have hpos : 0 < L := by omega
  have h1 : 1 ≤ L.toNat := by omega
  refine ⟨_, generateHashchain_eq_ok H rnd s L hpos
    (isWellFormedHashValue_ne_empty hs), ?_, ?_, ?_, ?_, ?_, ?_⟩
  · exact sdkHashchain_length H L.toNat s
  · exact fun i hi => sdkHashchain_get? H L.toNat s i hi
  · simpa using sdkHashchain_get? H L.toNat s 0 (by omega)
  · intro i hi1 hi2
    obtain ⟨i', rfl⟩ : ∃ i', i = i' + 1 := ⟨i - 1, by omega⟩
    rw [sdkHashchain_get? H L.toNat s (i' + 1) hi2,
      sdkHashchain_get? H L.toNat s (i' + 1 - 1) (by omega)]
    simp [Function.iterate_succ_apply']
  · show jsGet (sdkHashchain H s L.toNat) ((L.toNat : Int) - 1) = _
    rw [jsGet_of_nonneg _ (by omega)]
    congr 1
    omega
  · show jsGet (sdkHashchain H s L.toNat) ((L.toNat : Int) - 1) = _
    rw [jsGet_of_nonneg _ (by omega),
      sdkHashchain_get? H L.toNat s (((L.toNat : Int) - 1)).toNat (by omega)]
    congr 2
    omega

/-- Concrete instance of the C1 theorem at length 3 with an explicit
well-formed seed. -/
theorem generate_builds_hash_chain_witness :
    (1 : Int) ≤ 3 ∧ isWellFormedHashValue seedA = true ∧
    (∃ d : HashchainData,
      generateHashchain hashBang "r" 3 (some seedA) = .ok d ∧
      d.fullChain.length = (3 : Int).toNat ∧
      (∀ i : Nat, i < (3 : Int).toNat →
        d.fullChain.get? i = some (hashBang^[i] seedA)) ∧
      d.fullChain.get? 0 = some seedA ∧
      (∀ i : Nat, 1 ≤ i → i < (3 : Int).toNat →
        d.fullChain.get? i = (d.fullChain.get? (i - 1)).map hashBang) ∧
      d.trustAnchor = d.fullChain.get? ((3 : Int).toNat - 1) ∧
      d.trustAnchor = some (hashBang^[(3 : Int).toNat - 1] seedA)) :=
  ⟨by decide, by decide,
    generate_builds_hash_chain hashBang "r" seedA 3 (by decide) (by decide)⟩

/-- Claim C10: `generateHashchain` at length 1 does not fail; the returned
`firstToken` is read from JavaScript index -1 and so is `undefined`
(`none`), while `seed`, `trustAnchor` and `fullChain` are all the single
chain element. -/
theorem generate_length_one_firstToken_undefined (H : String → String)
    (rnd s : String) (hs : isWellFormedHashValue s = true) :
    generateHashchain H rnd 1 (some s) =
      .ok ⟨s, some s, none, 1, [s], [s]⟩ := by
  rw [generateHashchain_eq_ok H rnd s 1 (by omega)
    (isWellFormedHashValue_ne_empty hs)]
  norm_num [sdkHashchain, jsGet]

/-- Concrete instance of the C10 theorem. -/
theorem generate_length_one_firstToken_undefined_witness :
    isWellFormedHashValue seedA = true ∧
    generateHashchain hashBang "r" 1 (some seedA) =
      .ok ⟨seedA, some seedA, none, 1, [seedA], [seedA]⟩ :=
  ⟨by decide,
    generate_length_one_firstToken_undefined hashBang "r" seedA (by decide)⟩

/-- Claim C2: for a non-negative `numberOfHashes`, `verifyHashchain` applies
`H` exactly that many times to the test hash (zero applications leaves it
unchanged) and returns true iff the result equals the trust anchor. -/
theorem verify_iterates_hash (H : String → String) (t a : String) (n : Int)
    (hn : 0 ≤ n) :
    (verifyHashchain H t a n = true ↔ H^[n.toNat] t = a) ∧
    verifyHashchain H t a 0 = (t == a) := by
  constructor
  · rw [verifyHashchain, hashLoop_eq_iterate, beq_iff_eq]
  · rfl

/-- Concrete instance of the C2 theorem at two hash applications. -/
theorem verify_iterates_hash_witness :
    (0 : Int) ≤ 2 ∧
    ((verifyHashchain hashBang "ab" "ab!!" 2 = true ↔
      hashBang^[(2 : Int).toNat] "ab" = "ab!!") ∧
    verifyHashchain hashBang "ab" "ab!!" 0 = ("ab" == "ab!!")) :=
  ⟨by decide, verify_iterates_hash hashBang "ab" "ab!!" 2 (by decide)⟩

/-- A negative hash count does not make `verifyHashchain` fail: it returns
the boolean `true` here, contradicting the claim that it raises an
`InvalidParameter` error instead of returning a boolean. -/
theorem verify_negative_count_cex :
    verifyHashchain hashBang "0xaa" "0xaa" (-5) = true := by decide

/-- Claim C6 amended: for a negative `numberOfHashes` the loop of
`verifyHashchain` runs zero times, so the function returns the plain
equality of the test hash and the trust anchor instead of failing. -/
theorem verify_negative_count_zero_applications (H : String → String)
    (t a : String) (n : Int) (hn : n < 0) :
    verifyHashchain H t a n = (t == a) := by
  rw [verifyHashchain, Int.toNat_eq_zero.mpr (by omega)]
  rfl

/-- Concrete instance of the C6 amended theorem. -/
theorem verify_negative_count_zero_applications_witness :
    (-5 : Int) < 0 ∧ verifyHashchain hashBang "0xab" "0xcd" (-5) =
      ("0xab" == "0xcd") :=
  ⟨by decide,
    verify_negative_count_zero_applications hashBang "0xab" "0xcd" (-5)
      (by decide)⟩

/-- A chain generated with the constant hash function has trust anchor
"0xdd", and `calculateHashesNeeded` on the trust anchor against itself
returns 1, not the 0 the claim asserts (the loop always hashes at least
once before comparing). -/
theorem hashesNeeded_anchor_self_cex :
    generateHashchain hashConst "r" 2 (some "0xss") =
      .ok ⟨"0xss", some "0xdd", some "0xss", 2, ["0xss", "0xdd"],
        ["0xss", "0xdd"]⟩ ∧
    calculateHashesNeeded hashConst "0xdd" "0xdd" 1000 = some 1 := by
  constructor
  · rfl
  · rfl

/-- Claim C3 amended: on a chain generated with length `L`, element `k-1`
(0-based) is `H` iterated `k-1` times on the seed and the trust anchor is
`H` iterated `L-1` times; `verifyHashchain` accepts element `k-1` against
the anchor with `L-k` hashes for every `1 ≤ k ≤ L`; for `k < L`,
`calculateHashesNeeded` returns `L-k` provided the anchor is not produced
by fewer applications and the bound `maxHashes` is at least `L-k`; and for
`k = L` the claimed result 0 is impossible: `calculateHashesNeeded` never
returns `some 0`. -/
theorem chain_verify_and_hashesNeeded (H : String → String) (rnd s : String)
    (L k m : Nat) (hs : isWellFormedHashValue s = true) (hk1 : 1 ≤ k)
    (hkL : k ≤ L) :
    (generateHashchain H rnd (L : Int) (some s)).map
      (fun d => d.fullChain.get? (k - 1)) = .ok (some (H^[k - 1] s)) ∧
    (generateHashchain H rnd (L : Int) (some s)).map
      HashchainData.trustAnchor = .ok (some (H^[L - 1] s)) ∧
    verifyHashchain H (H^[k - 1] s) (H^[L - 1] s)
      ((L : Int) - (k : Int)) = true ∧
    (k < L → L - k ≤ m →
      (∀ j, 0 < j → j < L - k → H^[j] (H^[k - 1] s) ≠ H^[L - 1] s) →
      calculateHashesNeeded H (H^[k - 1] s) (H^[L - 1] s) m =
        some (L - k)) ∧
    calculateHashesNeeded H (H^[L - 1] s) (H^[L - 1] s) m ≠ some 0 := by
  have hL : 0 < (L : Int) := by omega
  have htn : (L : Int).toNat = L := by omega
  have hgen := generateHashchain_eq_ok H rnd s (L : Int) hL
    (isWellFormedHashValue_ne_empty hs)
  rw [htn] at hgen
  have hiter : ∀ i : Nat, i < L →
      (sdkHashchain H s L).get? i = some (H^[i] s) :=
    fun i hi => sdkHashchain_get? H L s i hi
  refine ⟨?_, ?_, ?_, ?_,
    calculateHashesNeeded_ne_some_zero H (H^[L - 1] s) (H^[L - 1] s) m⟩
  · rw [hgen, Except.map]
    exact congrArg Except.ok (hiter (k - 1) (by omega))
  · rw [hgen, Except.map]
    refine congrArg Except.ok ?_
    show jsGet (sdkHashchain H s L) ((L : Int) - 1) = _
    rw [jsGet_of_nonneg _ (by omega)]
    have : ((L : Int) - 1).toNat = L - 1 := by omega
    rw [this]
    exact hiter (L - 1) (by omega)
  · rw [verifyHashchain, hashLoop_eq_iterate]
    have h1 : ((L : Int) - (k : Int)).toNat = L - k := by omega
    rw [h1, ← Function.iterate_add_apply]
    have h2 : L - k + (k - 1) = L - 1 := by omega
    rw [h2, beq_iff_eq]
  · intro hkL' hm hfirst
    refine calculateHashesNeeded_eq H (H^[k - 1] s) (H^[L - 1] s)
      (L - k) m (by omega) hm ?_ hfirst
    rw [← Function.iterate_add_apply]
    have h2 : L - k + (k - 1) = L - 1 := by omega
    rw [h2]

/-- Concrete instance of the C3 amended theorem: chain of length 3,
element 0, two hashes to the anchor. -/
theorem chain_verify_and_hashesNeeded_witness :
    isWellFormedHashValue seedA = true ∧ 1 ≤ 1 ∧ 1 ≤ 3 ∧
    verifyHashchain hashBang (hashBang^[1 - 1] seedA)
      (hashBang^[3 - 1] seedA) ((3 : Int) - (1 : Int)) = true ∧
    calculateHashesNeeded hashBang (hashBang^[1 - 1] seedA)
      (hashBang^[3 - 1] seedA) 10 = some (3 - 1) ∧
    calculateHashesNeeded hashBang (hashBang^[3 - 1] seedA)
      (hashBang^[3 - 1] seedA) 10 ≠ some 0 := by
  have h := chain_verify_and_hashesNeeded hashBang "r" seedA 3 1 10
    (by decide) (by decide) (by decide)
  refine ⟨by decide, by decide, by decide, h.2.2.1, ?_, h.2.2.2.2⟩
  refine h.2.2.2.1 (by decide) (by decide) ?_
  intro j hj0 hj2
  have hj : j = 1 := by omega
  subst hj
  decide

/-- `generateHashchain` accepts length 10001: it succeeds instead of
failing with an `InvalidParameter` error, contradicting the claim that
lengths above 10000 make `generate` fail. -/
theorem generate_accepts_length_10001_cex :
    (generateHashchain hashBang "r" 10001 (some seedA)).isOk = true := rfl

/-- Claim C4 amended: `generateHashchain` itself throws only for
`length <= 0`; the upper policy bound of 10000 is enforced only by the
separate `validateHashchainParams` helper (never called by
`generateHashchain`), which reports lengths above 10000 as invalid. -/
theorem generate_length_validation (H : String → String) (rnd : String)
    (s? : Option String) (L : Int) :
    (L ≤ 0 → generateHashchain H rnd L s? =
      .error "Hashchain length must be greater than 0") ∧
    (10000 < L → (validateHashchainParams L s?).isValid = false) := by
  constructor
  · intro h
    unfold generateHashchain
    rw [if_pos h]
  · intro h
    simp only [validateHashchainParams]
    rw [if_neg (show ¬ L ≤ 0 by omega), if_pos h]
    rcases s? with _ | s
    · rfl
    · dsimp only
      split_ifs <;> rfl

/-- Concrete instances of the C4 amended theorem: length 0 is rejected by
`generateHashchain`, length 10001 is rejected by the validator. -/
theorem generate_length_validation_witness :
    generateHashchain hashBang "r" 0 (some seedA) =
      .error "Hashchain length must be greater than 0" ∧
    generateHashchain hashBang "r" (-5) (some seedA) =
      .error "Hashchain length must be greater than 0" ∧
    (validateHashchainParams 10001 (some seedA)).isValid = false :=
  ⟨(generate_length_validation hashBang "r" (some seedA) 0).1 (by decide),
   (generate_length_validation hashBang "r" (some seedA) (-5)).1 (by decide),
   (generate_length_validation hashBang "r" (some seedA) 10001).2
     (by decide)⟩

/-- `generateHashchain` happily builds a chain from the malformed seed
"banana", contradicting the claim that a malformed seed makes `generate`
fail with an `InvalidParameter` error. -/
theorem generate_accepts_malformed_seed_cex :
    isWellFormedHashValue "banana" = false ∧
    generateHashchain hashBang "r" 2 (some "banana") =
      .ok ⟨"banana", some "banana!", some "banana", 2,
        ["banana", "banana!"], ["banana", "banana!"]⟩ :=
  ⟨by decide, rfl⟩

/-- Claim C5 amended: `generateHashchain` performs no seed validation at
all and succeeds on any non-empty seed string; only the separate
`validateHashchainParams` helper (not called by `generateHashchain`) flags
a truthy seed that does not start with `0x` or whose length is not 66 — it
never checks that the remaining characters are hexadecimal. -/
theorem generate_ignores_seed_format (H : String → String) (rnd s : String)
    (L : Int) (hL : 0 < L) (hs : s ≠ "") :
    (generateHashchain H rnd L (some s)).isOk = true ∧
    (strStartsWith s "0x" = false →
      (validateHashchainParams L (some s)).isValid = false) ∧
    (¬ s.length = 66 → (validateHashchainParams L (some s)).isValid = false) := by
  have hbe : (s == "") = false := beq_eq_false_iff_ne.mpr hs
  refine ⟨?_, ?_, ?_⟩
  · rw [generateHashchain_eq_ok H rnd s L hL hs]
    rfl
  · intro hss
    simp only [validateHashchainParams, hbe, hss, Bool.not_false,
      Bool.and_self, if_true]
    split_ifs <;> rfl
  · intro hlen
    have hl2 : (s.length == 66) = false := beq_eq_false_iff_ne.mpr hlen
    simp only [validateHashchainParams, hbe, hl2, Bool.not_false,
      Bool.and_self, if_true]
    split_ifs <;> rfl

/-- Concrete instance of the C5 amended theorem with the malformed seed
"banana". -/
theorem generate_ignores_seed_format_witness :
    (0 : Int) < 2 ∧ "banana" ≠ "" ∧
    (generateHashchain hashBang "r" 2 (some "banana")).isOk = true ∧
    (validateHashchainParams 2 (some "banana")).isValid = false := by
  have h := generate_ignores_seed_format hashBang "r" "banana" 2
    (by decide) (by decide)
  exact ⟨by decide, by decide, h.1, h.2.1 (by decide)⟩

/-- Claim C7: for every total length L >= 2, mapping a token number
`1 <= t <= L-1` to its position and back yields `t`, and mapping a position
`1 <= p < L` to its token count and back yields `p`: the token/position
mapping is an invertible bijection determined by L. -/
theorem token_position_roundtrip (L : Int) (hL : 2 ≤ L) :
    (∀ t : Int, 1 ≤ t → t ≤ L - 1 → tokenRoundTrip t L = .ok t) ∧
    (∀ p : Int, 1 ≤ p → p < L → positionRoundTrip p L = .ok p) := by
  constructor
  · intro t ht1 ht2
    rw [tokenRoundTrip, getPositionForToken,
      if_neg (by simp only [Bool.or_eq_true, decide_eq_true_eq]; omega)]
    show getTokensForPosition (L - t) L = .ok t
    rw [getTokensForPosition,
      if_neg (by simp only [Bool.or_eq_true, decide_eq_true_eq]; omega),
      if_neg (by simp only [beq_iff_eq]; omega)]
    have h : L - (L - t) = t := by omega
    rw [h]
  · intro p hp1 hp2
    rw [positionRoundTrip, getTokensForPosition,
      if_neg (by simp only [Bool.or_eq_true, decide_eq_true_eq]; omega),
      if_neg (by simp only [beq_iff_eq]; omega)]
    show getPositionForToken (L - p) L = .ok p
    rw [getPositionForToken,
      if_neg (by simp only [Bool.or_eq_true, decide_eq_true_eq]; omega)]
    have h : L - (L - p) = p := by omega
    rw [h]

/-- Concrete instance of the C7 theorem at L = 5, token 2 and position 3. -/
theorem token_position_roundtrip_witness :
    (2 : Int) ≤ 5 ∧ tokenRoundTrip 2 5 = .ok 2 ∧
    positionRoundTrip 3 5 = .ok 3 :=
  ⟨by decide,
   (token_position_roundtrip 5 (by decide)).1 2 (by decide) (by decide),
   (token_position_roundtrip 5 (by decide)).2 3 (by decide) (by decide)⟩

/-- Claim C8: the search is a linear first-match scan.  On a chain whose
`length` field equals the number of stored elements, a target occurring
first at 0-based index `i` yields `found = true`, the 1-based position
`i + 1` and the token count of that position (which is always computable);
an absent target yields `found = false` with no position or tokens and no
error. -/
theorem search_first_match (hc : HashchainData) (target : String)
    (hlen : hc.length = hc.fullChain.length) :
    (target ∉ hc.fullChain →
      searchHashInHashchain hc target = .ok ⟨false, none, none⟩) ∧
    (∀ i : Nat, hc.fullChain.get? i = some target →
      (∀ j, j < i → hc.fullChain.get? j ≠ some target) →
      (getTokensForPosition ((i : Int) + 1) (hc.length : Int)).isOk = true ∧
      searchHashInHashchain hc target =
        (getTokensForPosition ((i : Int) + 1) (hc.length : Int)).map
          (fun tok => ⟨true, some ((i : Int) + 1), some tok⟩)) := by
  constructor
  · intro hmem
    simp only [searchHashInHashchain, jsIndexOf_of_not_mem target _ hmem]
    rfl
  · intro i hi hfirst
    have hidx := jsIndexOf_of_first target hc.fullChain i hi hfirst
    have hlt : i < hc.fullChain.length := length_lt_of_get?_eq_some hi
    obtain ⟨tok, htok⟩ :
        ∃ tok, getTokensForPosition ((i : Int) + 1) (hc.length : Int) =
          .ok tok := by
      rw [getTokensForPosition,
        if_neg (by simp only [Bool.or_eq_true, decide_eq_true_eq]; omega)]
      split_ifs <;> exact ⟨_, rfl⟩
    refine ⟨by rw [htok]; rfl, ?_⟩
    simp only [searchHashInHashchain, hidx]
    rw [if_neg (by simp only [beq_iff_eq]; omega), htok]
    rfl

/-- Concrete instances of the C8 theorem on a three-element chain: a
missing value reports not-found without error, and the value at 0-based
index 1 is reported at position 2 with 1 token. -/
theorem search_first_match_witness :
    searchHashInHashchain hcW "zz" = .ok ⟨false, none, none⟩ ∧
    (getTokensForPosition (((1 : Nat) : Int) + 1) (hcW.length : Int)).isOk
      = true ∧
    searchHashInHashchain hcW "b" =
      .ok ⟨true, some (((1 : Nat) : Int) + 1), some 1⟩ := by
  have h1 := (search_first_match hcW "zz" rfl).1 (by decide)
  have h2 := (search_first_match hcW "b" rfl).2 1 (by decide)
    (by
      intro j hj
      have hj0 : j = 0 := by omega
      rw [hj0]
      decide)
  exact ⟨h1, h2.1, h2.2.trans (by rfl)⟩

/-- Claim C9: `getTokensForPosition` fails exactly when the position is
outside `1..totalLength`; within range it returns `totalLength - position`
below the trust anchor and 0 at the trust anchor, with the boundary values
`tokensForPosition(1, L) = L - 1`, `tokensForPosition(L-1, L) = 1` and
`tokensForPosition(L, L) = 0`. -/
theorem tokensForPosition_spec (p L : Int) :
    ((getTokensForPosition p L).isOk = false ↔ (p < 1 ∨ L < p)) ∧
    (1 ≤ p → p < L → getTokensForPosition p L = .ok (L - p)) ∧
    (1 ≤ L → getTokensForPosition L L = .ok 0) ∧
    (1 ≤ L → getTokensForPosition 1 L = .ok (L - 1)) ∧
    (2 ≤ L → getTokensForPosition (L - 1) L = .ok 1) := by
  refine ⟨?_, ?_, ?_, ?_, ?_⟩
  · rw [getTokensForPosition]
    split_ifs with h1 h2
    · simp only [Bool.or_eq_true, decide_eq_true_eq] at h1
      exact ⟨fun _ => h1, fun _ => rfl⟩
    · simp only [Bool.or_eq_true, decide_eq_true_eq] at h1
      exact ⟨fun h => Bool.noConfusion h, fun h => absurd h h1⟩
    · simp only [Bool.or_eq_true, decide_eq_true_eq] at h1
      exact ⟨fun h => Bool.noConfusion h, fun h => absurd h h1⟩
  · intro hp1 hp2
    rw [getTokensForPosition,
      if_neg (by simp only [Bool.or_eq_true, decide_eq_true_eq]; omega),
      if_neg (by simp only [beq_iff_eq]; omega)]
  · intro hL
    rw [getTokensForPosition,
      if_neg (by simp only [Bool.or_eq_true, decide_eq_true_eq]; omega),
      if_pos (by simp only [beq_iff_eq])]
  · intro hL
    rcases eq_or_lt_of_le hL with hEq | hlt
    · rw [getTokensForPosition,
        if_neg (by simp only [Bool.or_eq_true, decide_eq_true_eq]; omega),
        if_pos (by simp only [beq_iff_eq]; omega)]
      have h : (0 : Int) = L - 1 := by omega
      rw [h]
    · rw [getTokensForPosition,
        if_neg (by simp only [Bool.or_eq_true, decide_eq_true_eq]; omega),
        if_neg (by simp only [beq_iff_eq]; omega)]
  · intro hL
    rw [getTokensForPosition,
      if_neg (by simp only [Bool.or_eq_true, decide_eq_true_eq]; omega),
      if_neg (by simp only [beq_iff_eq]; omega)]
    have h : L - (L - 1) = 1 := by omega
    rw [h]

/-- Concrete instances of the C9 theorem at L = 3. -/
theorem tokensForPosition_spec_witness :
    ((getTokensForPosition 0 3).isOk = false ↔ ((0 : Int) < 1 ∨ (3 : Int) < 0)) ∧
    getTokensForPosition 2 3 = .ok (3 - 2) ∧
    getTokensForPosition 3 3 = .ok 0 ∧
    getTokensForPosition 1 3 = .ok (3 - 1) ∧
    getTokensForPosition (3 - 1) 3 = .ok 1 :=
  ⟨(tokensForPosition_spec 0 3).1,
   (tokensForPosition_spec 2 3).2.1 (by decide) (by decide),
   (tokensForPosition_spec 3 3).2.2.1 (by decide),
   (tokensForPosition_spec 1 3).2.2.2.1 (by decide),
   (tokensForPosition_spec 2 3).2.2.2.2 (by decide)⟩
